import Mathlib

/-!
Shallow embedding of `sphinxcontrib/pecanwsme/rest.py`, the single source
module of the repository: a Sphinx directive that documents Pecan/WSME REST
controllers.  Python string primitives are modelled on the underlying
character lists so that every definition evaluates by kernel reduction.
Fallible Python code (AttributeError on a missing attribute, IndexError on
an out-of-range index) is modelled with `Option`: `none` is the raised
exception.
-/

/-- Model of Python `str.lower()` (`method.lower()` in `http_directive`,
`action.lower()` in `make_rst_for_controller`). -/
def pyLower (s : String) : String :=
  ⟨s.data.map Char.toLower⟩

/-- Model of Python `str.strip()` with no argument: drop whitespace from both
ends (used as `method.lower().strip()` in `http_directive`). -/
def pyStrip (s : String) : String :=
  ⟨((s.data.dropWhile Char.isWhitespace).reverse.dropWhile Char.isWhitespace).reverse⟩

/-- Model of Python `str.rstrip` with a slash argument, used on the path
argument of `make_rst_for_controller`. -/
def pyRstripSlash (s : String) : String :=
  ⟨(s.data.reverse.dropWhile (· == '/')).reverse⟩

/-- Lexicographic order on character lists by code point, the order the Python
builtin `sorted` uses on strings.  Code points are compared through `Char.toNat`. -/
def lexLe : List Char → List Char → Bool
  | [], _ => true
  | _ :: _, [] => false
  | a :: as, b :: bs => if a.toNat = b.toNat then lexLe as bs else decide (a.toNat < b.toNat)

/-- The string order used by the Python builtin `sorted` on `str` keys. -/
def strLe (a b : String) : Prop := lexLe a.data b.data = true

instance : DecidableRel strLe := fun a b => by
  unfold strLe; infer_instance

/-- Model of the wsme type descriptors consumed by `datatypename`.  The
constructors follow the `isinstance` chain of the source: `dictType`,
`arrayType` and `userType` are `wsme.types.DictType`, `wsme.types.ArrayType`
and `wsme.types.UserType` values; `base` is a value for which
`isinstance(datatype, wsme.types.Base)` holds; `other` is anything else.
For the last two the optional field records the `__name__` attribute when the
value has one (the `hasattr` check for the dunder name attribute). -/
inductive Datatype where
  | dictType (key_type value_type : Datatype)
  | arrayType (item_type : Datatype)
  | userType (name : String)
  | base (dunder_name : Option String)
  | other (dunder_name : Option String)
deriving DecidableEq

/-- Function `datatypename` from the source.  `none` models the AttributeError raised
when `datatype.__name__` is read on a value without a `__name__` attribute
(either inside the `:class:` branch for a `wsme.types.Base` value, or at the
final `return datatype.__name__`). -/
def datatypename : Datatype → Option String
  | .dictType k v => do
      let ks ← datatypename k
      let vs ← datatypename v
      return "dict(" ++ ks ++ ": " ++ vs ++ ")"
  | .arrayType i => do
      let s ← datatypename i
      return "list(" ++ s ++ ")"
  | .userType n => some (":class:`" ++ n ++ "`")
  | .base dn => do
      let n ← dn
      return ":class:`" ++ n ++ "`"
  | .other dn => do
      let n ← dn
      return ":class:`" ++ n ++ "`"

/-- Function `http_directive` from the source, for the list-of-lines case of
`content` (the callers always pass the list built by
`make_rst_for_method`; the `basestring` branch only splits a plain string
into such a list). -/
def http_directive (method path : String) (content : List String) : List String :=
  let m := pyStrip (pyLower method)
  [""]
  ++ [".. http:" ++ m ++ ":: " ++ path]
  ++ [""]
  ++ content.map (fun line => "   " ++ line)
  ++ [""]

/-- One argument record of a wsme function definition: `arg.name` and
`arg.datatype` as read by `make_rst_for_method`. -/
structure FunctionArgument where
  name : String
  datatype : Datatype
deriving DecidableEq

/-- The `_wsme_definition` metadata object: `funcdef.arguments` and
`funcdef.return_type` (with `None` as `none`). -/
structure FunctionDefinition where
  arguments : List FunctionArgument
  return_type : Option Datatype
deriving DecidableEq

/-- A controller method as the directive reads it: the `exposed` marker
attribute (`none` models a method on which the attribute is absent
altogether, so that reading `method.exposed` raises AttributeError;
`some b` models a present attribute of truthiness `b`), the result of
`prepare_docstring` applied to the raw docstring (an external Sphinx
collaborator, so its output list is taken as input here), and the optional
`_wsme_definition` attribute. -/
structure Method where
  exposed : Option Bool
  doc : List String
  wsme_definition : Option FunctionDefinition
deriving DecidableEq

/-- A controller as the directive reads it: `inspect.getargspec(__init__)`
argument names (`none` models the TypeError branch for the uninspectable
default `object.__init__` slot wrapper), the method attributes reachable by
`getattr`, and the `_custom_actions` mapping in insertion order. -/
structure Controller where
  init_argspec : Option (List String)
  methods : List (String × Method)
  custom_actions : List (String × List String)
deriving DecidableEq

/-- Python `getattr(controller, name, None)` over the method table. -/
def Controller.getattr (c : Controller) (name : String) : Option Method :=
  c.methods.lookup name

/-- A Python `for` loop that builds a list and may raise: apply `f` to each
element in order, stopping at the first failure. -/
def optionMapM {A B : Type} (f : A → Option B) : List A → Option (List B)
  | [] => some []
  | a :: t => do
      let b ← f a
      let bs ← optionMapM f t
      return b :: bs

/-- The `:type <name>: <rendered type>` line appended for one argument in
`make_rst_for_method`. -/
def param_type_line (arg : FunctionArgument) : Option String := do
  let tn ← datatypename arg.datatype
  return ":type " ++ arg.name ++ ": " ++ tn

/-- The docstring-lines part of `make_rst_for_method`: `docstring[-1]` is
removed and kept as the blank spacer (IndexError, i.e. `none`, when the
normalized docstring is empty), then, when `_wsme_definition` is present,
the `:type` lines, the spacer, the optional `:return type:` line and the
spacer again are appended. -/
def method_doc_lines (method : Method) : Option (List String) := do
  let blank_line ← method.doc.getLast?
  let docstring := method.doc.dropLast
  match method.wsme_definition with
  | none => return docstring
  | some funcdef => do
      let type_lines ← optionMapM param_type_line funcdef.arguments
      let return_lines ← match funcdef.return_type with
        | none => pure ([] : List String)
        | some rt => do
            let tn ← datatypename rt
            pure [":return type: " ++ tn]
      return docstring ++ type_lines ++ [blank_line] ++ return_lines ++ [blank_line]

/-- Method renderer `make_rst_for_method` from the source: the docstring block wrapped by
`http_directive`. -/
def make_rst_for_method (path : String) (method : Method) (http_method : String) :
    Option (List String) := do
  let docstring ← method_doc_lines method
  return http_directive http_method path docstring

/-- An endpoint descriptor: the `(path, method, http verb)` triple that one
`lines.extend(self.make_rst_for_method(path, method, verb))` call site of
`make_rst_for_controller` renders. -/
structure Endpoint where
  path : String
  method : Method
  verb : String
deriving DecidableEq

/-- The `controller_path` computed at the top of `make_rst_for_controller`:
the prefix with trailing `/` stripped, then, when `getargspec` succeeds and
`len(argspec[0]) > 1`, suffixed with `/(<second __init__ argument name>)`. -/
def controller_base_path (pre : String) (c : Controller) : String :=
  let controller_path := pyRstripSlash pre
  match c.init_argspec with
  | none => controller_path
  | some argnames =>
      match argnames with
      | _ :: first_arg_name :: _ => controller_path ++ "/(" ++ first_arg_name ++ ")"
      | _ => controller_path

/-- The first conventional-method table of `make_rst_for_controller`:
the names `get_all` and `get`, both mapped to the verb `get`. -/
def conventional_get_methods : List (String × String) :=
  [("get_all", "get"), ("get", "get")]

/-- The second conventional-method table of `make_rst_for_controller`:
the names `post`, `put`, `delete` and `patch`, each mapped to the
same-named verb. -/
def conventional_write_methods : List (String × String) :=
  [("post", "post"), ("put", "put"), ("delete", "delete"), ("patch", "patch")]

/-- One iteration of a conventional-method loop of
`make_rst_for_controller`: `getattr(controller, method_name, None)` is
read, and when a method exists the `method.exposed` test is evaluated —
raising AttributeError (`none`) when the attribute is absent, emitting one
descriptor at the controller path when it is truthy, and emitting nothing
when it is falsy.  An undefined name emits nothing. -/
def conventional_entry (controller_path : String) (c : Controller)
    (p : String × String) : Option (List Endpoint) :=
  match c.getattr p.1 with
  | some method =>
      match method.exposed with
      | none => none
      | some b => if b then some [⟨controller_path, method, p.2⟩] else some []
  | none => some []

/-- One conventional-method loop of `make_rst_for_controller`: the
iterations over the table entries in order, concatenating the emitted
descriptors and propagating a raised error. -/
def conventionalEndpoints (controller_path : String) (c : Controller) :
    List (String × String) → Option (List Endpoint)
  | [] => some []
  | p :: rest => do
      let head ← conventional_entry controller_path c p
      let tail ← conventionalEndpoints controller_path c rest
      return head ++ tail

/-- The `get_one` special case of `make_rst_for_controller`: when the
attribute exists, its `exposed` marker is read (AttributeError, `none`,
when absent); when the marker is truthy, `_wsme_definition` is read
(`none` models the AttributeError when it is missing) and `funcdef.arguments[0].name`
(`none` models the IndexError when `arguments` is empty) is appended to the
path in parentheses. -/
def getOneEndpoints (controller_path : String) (c : Controller) : Option (List Endpoint) :=
  match c.getattr "get_one" with
  | none => some []
  | some get_one =>
      match get_one.exposed with
      | none => none
      | some b =>
          if b then
            match get_one.wsme_definition with
            | none => none
            | some funcdef =>
                match funcdef.arguments with
                | [] => none
                | first_arg :: _ =>
                    some [⟨controller_path ++ "/(" ++ first_arg.name ++ ")", get_one, "get"⟩]
          else some []

/-- The sorted key list of the custom-action registry: the custom-action
names in ascending lexical order.  The Python builtin `sorted` is modelled
by insertion sort under `strLe`. -/
def sortedActionNames (c : Controller) : List String :=
  List.insertionSort strLe (c.custom_actions.map Prod.fst)

/-- The body of the custom-action loop of `make_rst_for_controller` for one
action name: for each verb in `controller._custom_actions[name]`, resolve
the implementing method as `getattr` of the lowercased verb joined to the
name by an underscore if that
attribute exists, else `getattr(controller, name)` (`none` models the
AttributeError when the bare attribute is missing too), and emit one
descriptor at the controller path joined to the name by a slash. -/
def customEndpointsForName (controller_path : String) (c : Controller) (name : String) :
    Option (List Endpoint) := do
  let path := controller_path ++ "/" ++ name
  let actions ← c.custom_actions.lookup name
  optionMapM (fun action =>
    match c.getattr (pyLower action ++ "_" ++ name) with
    | some method => some ⟨path, method, pyLower action⟩
    | none =>
        match c.getattr name with
        | some method => some ⟨path, method, pyLower action⟩
        | none => none) actions

/-- The custom-action loop of `make_rst_for_controller`: the per-name blocks
concatenated over the sorted action names. -/
def customEndpoints (controller_path : String) (c : Controller) : Option (List Endpoint) := do
  let groups ← optionMapM (customEndpointsForName controller_path c) (sortedActionNames c)
  return groups.flatten

/-- The descriptors of the three non-custom phases of
`make_rst_for_controller`, in emission order: the `get_all`/`get` loop, the
`get_one` special case, the `post`/`put`/`delete`/`patch` loop. -/
def nonCustomEndpoints (pre : String) (c : Controller) : Option (List Endpoint) := do
  let controller_path := controller_base_path pre c
  let get_eps ← conventionalEndpoints controller_path c conventional_get_methods
  let one_eps ← getOneEndpoints controller_path c
  let write_eps ← conventionalEndpoints controller_path c conventional_write_methods
  return get_eps ++ one_eps ++ write_eps

/-- The full endpoint descriptor sequence of `make_rst_for_controller`, in
emission order. -/
def endpointsForController (pre : String) (c : Controller) : Option (List Endpoint) := do
  let eps ← nonCustomEndpoints pre c
  let custom_eps ← customEndpoints (controller_base_path pre c) c
  return eps ++ custom_eps

/-- Controller renderer `make_rst_for_controller` from the source: every emitted descriptor
rendered by `make_rst_for_method`, concatenated into the returned `lines`. -/
def make_rst_for_controller (pre : String) (c : Controller) : Option (List String) := do
  let eps ← endpointsForController pre c
  let blocks ← optionMapM (fun e => make_rst_for_method e.path e.method e.verb) eps
  return blocks.flatten

/-! ### Concrete fixtures used to instantiate the theorems below -/

/-- A wsme argument record named `item_id` of native type `int`. -/
def sampleArg : FunctionArgument := ⟨"item_id", .other (some "int")⟩

/-- Metadata with one argument and a user-type return type. -/
def sampleFuncdef : FunctionDefinition := ⟨[sampleArg], some (.userType "Thing")⟩

/-- An exposed `get_all` method. -/
def sampleGetAll : Method := ⟨some true, ["List all things.", ""], none⟩

/-- An exposed `get_one` method carrying metadata. -/
def sampleGetOne : Method := ⟨some true, ["Fetch one thing.", ""], some sampleFuncdef⟩

/-- A controller whose constructor takes `(self, group_id)` and which exposes
`get_all` and `get_one` only. -/
def sampleController : Controller :=
  ⟨some ["self", "group_id"],
   [("get_all", sampleGetAll), ("get_one", sampleGetOne)], []⟩

/-- A verb-prefixed implementation of the custom action `foo`. -/
def sampleGetFoo : Method := ⟨some true, ["Verb-prefixed foo.", ""], none⟩

/-- A bare implementation of the custom action `foo`. -/
def sampleFoo : Method := ⟨some true, ["Bare foo.", ""], none⟩

/-- A controller with a custom action `foo` mapped to verbs `GET` and `POST`,
a `get_foo` method and a bare `foo` method but no `post_foo`. -/
def sampleCustomController : Controller :=
  ⟨none, [("get_foo", sampleGetFoo), ("foo", sampleFoo)],
   [("foo", ["GET", "POST"])]⟩

/-- A controller with an exposed `get_one` that has no `_wsme_definition`. -/
def sampleNoMeta : Controller :=
  ⟨none, [("get_one", ⟨some true, ["No metadata.", ""], none⟩)], []⟩

/-- A method implementing the custom action `a`. -/
def sampleActionA : Method := ⟨some true, ["Action a.", ""], none⟩

/-- A method implementing the custom action `b`. -/
def sampleActionB : Method := ⟨some true, ["Action b.", ""], none⟩

/-- A controller whose custom-action registry lists `b` before `a`. -/
def sampleRegistryBA : Controller :=
  ⟨none, [("a", sampleActionA), ("b", sampleActionB)],
   [("b", ["GET"]), ("a", ["GET"])]⟩

/-- The same controller with the registry in the opposite insertion order. -/
def sampleRegistryAB : Controller :=
  ⟨none, [("a", sampleActionA), ("b", sampleActionB)],
   [("a", ["GET"]), ("b", ["GET"])]⟩

/-! ### Order facts about the model of Python string sorting -/

lemma lexLe_total : ∀ as bs, lexLe as bs = true ∨ lexLe bs as = true
  | [], _ => Or.inl rfl
  | _ :: _, [] => Or.inr rfl
  | a :: as, b :: bs => by
      unfold lexLe
      by_cases h : a.toNat = b.toNat
      · rw [if_pos h, if_pos h.symm]
        exact lexLe_total as bs
      · have h' : ¬ b.toNat = a.toNat := fun e => h e.symm
        rcases Nat.lt_or_ge a.toNat b.toNat with hlt | hge
        · rw [if_neg h]
          exact Or.inl (by simpa using hlt)
        · have hlt : b.toNat < a.toNat := lt_of_le_of_ne hge h'
          rw [if_neg h']
          exact Or.inr (by simpa using hlt)

lemma lexLe_trans : ∀ as bs cs, lexLe as bs = true → lexLe bs cs = true →
    lexLe as cs = true
  | [], _, _ => fun _ _ => rfl
  | _ :: _, [], _ => fun h _ => by simp [lexLe] at h
  | _ :: _, _ :: _, [] => fun _ h => by simp [lexLe] at h
  | a :: as, b :: bs, c :: cs => fun h1 h2 => by
      unfold lexLe at h1 h2 ⊢
      by_cases hab : a.toNat = b.toNat
      · rw [if_pos hab] at h1
        by_cases hbc : b.toNat = c.toNat
        · rw [if_pos hbc] at h2
          rw [if_pos (hab.trans hbc)]
          exact lexLe_trans as bs cs h1 h2
        · rw [if_neg hbc, decide_eq_true_eq] at h2
          have hac : a.toNat < c.toNat := by omega
          rw [if_neg (Nat.ne_of_lt hac)]
          simpa using hac
      · rw [if_neg hab, decide_eq_true_eq] at h1
        by_cases hbc : b.toNat = c.toNat
        · have hac : a.toNat < c.toNat := by omega
          rw [if_neg (Nat.ne_of_lt hac)]
          simpa using hac
        · rw [if_neg hbc, decide_eq_true_eq] at h2
          have hac : a.toNat < c.toNat := Nat.lt_trans h1 h2
          rw [if_neg (Nat.ne_of_lt hac)]
          simpa using hac

lemma lexLe_antisymm : ∀ as bs, lexLe as bs = true → lexLe bs as = true → as = bs
  | [], [] => fun _ _ => rfl
  | [], _ :: _ => fun _ h => by simp [lexLe] at h
  | _ :: _, [] => fun h _ => by simp [lexLe] at h
  | a :: as, b :: bs => fun h1 h2 => by
      unfold lexLe at h1 h2
      by_cases hab : a.toNat = b.toNat
      · have hchar : a = b := Char.ext (UInt32.ext hab)
        rw [if_pos hab] at h1
        rw [if_pos hab.symm] at h2
        exact congrArg₂ (· :: ·) hchar (lexLe_antisymm as bs h1 h2)
      · have hab' : ¬ b.toNat = a.toNat := fun e => hab e.symm
        rw [if_neg hab, decide_eq_true_eq] at h1
        rw [if_neg hab', decide_eq_true_eq] at h2
        exact absurd h2 (Nat.lt_asymm h1)

lemma String.data_inj {a b : String} (h : a.data = b.data) : a = b := by
  cases a; cases b; exact congrArg String.mk h

instance : IsTotal String strLe :=
  ⟨fun a b => lexLe_total a.data b.data⟩

instance : IsTrans String strLe :=
  ⟨fun a b c => lexLe_trans a.data b.data c.data⟩

instance : IsAntisymm String strLe :=
  ⟨fun a b h1 h2 => String.data_inj (lexLe_antisymm a.data b.data h1 h2)⟩

/-- Association-list lookup finds a value exactly when the key occurs among
the mapped keys. -/
lemma lookup_isSome_iff_mem_keys {β : Type} :
    ∀ (l : List (String × β)) (n : String), (l.lookup n).isSome ↔ n ∈ l.map Prod.fst
  | [], n => by simp [List.lookup]
  | (k, v) :: t, n => by
      by_cases h : n = k
      · subst h
        simp [List.lookup]
      · have hbeq : (n == k) = false := by simp [h]
        simp [List.lookup, hbeq, h, lookup_isSome_iff_mem_keys t n]

/-- Successful `optionMapM` preserves length. -/
lemma optionMapM_length {A B : Type} (f : A → Option B) :
    ∀ (l : List A) (l' : List B), optionMapM f l = some l' → l'.length = l.length
  | [], l' => by
      intro h
      cases h
      rfl
  | a :: t, l' => by
      intro h
      unfold optionMapM at h
      cases hfa : f a with
      | none => rw [hfa] at h; cases h
      | some b =>
          rw [hfa] at h
          cases hft : optionMapM f t with
          | none => rw [hft] at h; cases h
          | some bs =>
              rw [hft] at h
              cases h
              simp [optionMapM_length f t bs hft]

/-- Successful `optionMapM` maps positions: the output at index `i` is the
image of the input at index `i`. -/
lemma optionMapM_getElem? {A B : Type} (f : A → Option B) :
    ∀ (l : List A) (l2 : List B), optionMapM f l = some l2 →
      ∀ (i : Nat) (a : A), l[i]? = some a → ∃ b, f a = some b ∧ l2[i]? = some b
  | [], l2 => by
      intro h i a ha
      simp at ha
  | x :: t, l2 => by
      intro h i a ha
      unfold optionMapM at h
      cases hfx : f x with
      | none => simp [hfx] at h
      | some b =>
          cases hft : optionMapM f t with
          | none => simp [hfx, hft] at h
          | some bs =>
              rw [hfx, hft] at h
              have hl : b :: bs = l2 := by simpa using h
              subst hl
              cases i with
              | zero =>
                  have hax : x = a := by simpa using ha
                  subst hax
                  exact ⟨b, hfx, by simp⟩
              | succ j =>
                  have ha2 : t[j]? = some a := by simpa using ha
                  rcases optionMapM_getElem? f t bs hft j a ha2 with ⟨b2, hb2, hb2i⟩
                  exact ⟨b2, hb2, by simpa using hb2i⟩

/-- The last element of a rendered block, in the concat form. -/
lemma getLast?_block (a b c : String) (l : List String) (d : String) :
    (([a] ++ [b] ++ [c] ++ l ++ [d]) : List String).getLast? = some d := by
  have h : ([a] ++ [b] ++ [c] ++ l ++ [d] : List String) = (a :: b :: c :: l) ++ [d] := by
    simp
  rw [h, List.getLast?_concat]

/-- C6: for every verb string already in its normalized lowercase, stripped
form, every path and every content line sequence, the rendered block of one
endpoint is exactly a leading blank line, the directive line
`.. http:<verb>:: <path>`, a blank line, each content line prefixed with
exactly three spaces, and a trailing blank line; consequently the block ends
with a blank separator line. -/
theorem claim_C6 (verb path : String) (content : List String)
    (h : pyStrip (pyLower verb) = verb) :
    http_directive verb path content =
      [""] ++ [".. http:" ++ verb ++ ":: " ++ path] ++ [""]
        ++ content.map (fun line => "   " ++ line) ++ [""]
    ∧ (http_directive verb path content).getLast? = some "" := by
  have hblock : http_directive verb path content =
      [""] ++ [".. http:" ++ verb ++ ":: " ++ path] ++ [""]
        ++ content.map (fun line => "   " ++ line) ++ [""] := by
    unfold http_directive
    rw [h]
  refine ⟨hblock, ?_⟩
  rw [hblock]
  exact getLast?_block _ _ _ _ _

/-- C6 witness: the block for verb `get`, path `/v1/things` and two content
lines. -/
theorem claim_C6_witness :
    http_directive "get" "/v1/things" ["line one", ""] =
      [""] ++ [".. http:get:: /v1/things"] ++ [""]
        ++ (["line one", ""].map (fun line => "   " ++ line)) ++ [""] :=
  (claim_C6 "get" "/v1/things" ["line one", ""] (by decide)).1

/-- C7: the type-name renderer is recursive and depth-first: a dictionary
type renders as `dict(<key>: <value>)` from the rendered key and value
types, a sequence type as `list(<item>)`, a named user type and anything
else exposing a `__name__` attribute as a `:class:` cross-reference on that
name, and a value without any name attribute makes the renderer fail (the
AttributeError branch, `none`); the example
dictionary-of(sequence-of(int), UserRecord) renders as
`dict(list(:class:`int`): :class:`UserRecord`)`. -/
theorem claim_C7 (k v : Datatype) (ks vs : String)
    (hk : datatypename k = some ks) (hv : datatypename v = some vs) :
    datatypename (.dictType k v) = some ("dict(" ++ ks ++ ": " ++ vs ++ ")")
    ∧ datatypename (.arrayType k) = some ("list(" ++ ks ++ ")")
    ∧ (∀ n, datatypename (.userType n) = some (":class:`" ++ n ++ "`"))
    ∧ (∀ n, datatypename (.base (some n)) = some (":class:`" ++ n ++ "`"))
    ∧ (∀ n, datatypename (.other (some n)) = some (":class:`" ++ n ++ "`"))
    ∧ datatypename (.base none) = none
    ∧ datatypename (.other none) = none
    ∧ datatypename (.dictType (.arrayType (.other (some "int"))) (.userType "UserRecord"))
        = some "dict(list(:class:`int`): :class:`UserRecord`)" := by
  refine ⟨?_, ?_, ?_, ?_, ?_, ?_, ?_, by decide⟩ <;>
    simp [datatypename, hk, hv]

/-- C7 witness: the renderer at a concrete dictionary type. -/
theorem claim_C7_witness :
    datatypename (.dictType (.other (some "int")) (.userType "Thing")) =
      some ("dict(" ++ ":class:`int`" ++ ": " ++ ":class:`Thing`" ++ ")") :=
  (claim_C7 (.other (some "int")) (.userType "Thing") ":class:`int`" ":class:`Thing`"
    (by decide) (by decide)).1

/-- C8: for a method whose normalized docstring ends in the spacer line, the
rendered documentation lines are the docstring with the trailing spacer
removed, then, only when parameter/return metadata is attached, one
`:type <name>: <rendered type>` line per declared parameter in declaration
order, the re-inserted spacer, the `:return type:` line only when a return
type is declared, and the re-inserted spacer again; a method without
metadata gets only the spacer-stripped docstring lines. -/
theorem claim_C8 (m : Method) (d : List String) (spacer : String)
    (hdoc : m.doc = d ++ [spacer]) :
    (m.wsme_definition = none → method_doc_lines m = some d)
    ∧ (∀ fd type_lines, m.wsme_definition = some fd →
        optionMapM param_type_line fd.arguments = some type_lines →
        type_lines.length = fd.arguments.length
        ∧ (fd.return_type = none →
            method_doc_lines m = some (d ++ type_lines ++ [spacer] ++ [spacer]))
        ∧ (∀ rt tn, fd.return_type = some rt → datatypename rt = some tn →
            method_doc_lines m =
              some (d ++ type_lines ++ [spacer] ++ [":return type: " ++ tn] ++ [spacer]))) := by
  have hlast : m.doc.getLast? = some spacer := by
    rw [hdoc]; exact List.getLast?_concat _
  have hdrop : m.doc.dropLast = d := by
    rw [hdoc]; exact List.dropLast_concat
  constructor
  · intro hw
    simp [method_doc_lines, hlast, hdrop, hw]
  · intro fd type_lines hw hmap
    refine ⟨optionMapM_length _ _ _ hmap, ?_, ?_⟩
    · intro hrt
      simp [method_doc_lines, hlast, hdrop, hw, hmap, hrt]
    · intro rt tn hrt htn
      simp [method_doc_lines, hlast, hdrop, hw, hmap, hrt, htn]

/-- C8 witness: the documentation lines of the fixture `get_one` method,
which carries one declared parameter and a return type. -/
theorem claim_C8_witness :
    method_doc_lines sampleGetOne =
      some (["Fetch one thing."] ++ [":type item_id: :class:`int`"] ++ [""]
        ++ [":return type: :class:`Thing`"] ++ [""]) :=
  ((claim_C8 sampleGetOne ["Fetch one thing."] "" (by decide)).2
    sampleFuncdef [":type item_id: :class:`int`"] rfl (by decide)).2.2
    (.userType "Thing") ":class:`Thing`" rfl (by decide)

/-- Looking up any key in a one-entry table can only produce its value. -/
lemma lookup_singleton_eq {β : Type} {k : String} {v : β} {n : String} {w : β}
    (h : List.lookup n [(k, v)] = some w) : w = v := by
  by_cases hk : n = k
  · subst hk
    simp [List.lookup] at h
    exact h.symm
  · have hbeq : (n == k) = false := by simp [hk]
    simp [List.lookup, hbeq] at h

/-- C1: a controller that defines exposed `get_all` and `get_one` methods
and none of the other conventional methods, with an empty custom-action
registry, yields exactly two descriptors, both with verb `get`: one at the
controller base path for `get_all` and one at the base path suffixed with
the `get_one` argument placeholder; no descriptor has verb `post`. -/
theorem claim_C1 (pre : String) (c : Controller) (get_all get_one : Method)
    (fd : FunctionDefinition) (arg : FunctionArgument) (args_rest : List FunctionArgument)
    (h_all : c.getattr "get_all" = some get_all) (h_all_exp : get_all.exposed = some true)
    (h_get : c.getattr "get" = none)
    (h_one : c.getattr "get_one" = some get_one) (h_one_exp : get_one.exposed = some true)
    (h_def : get_one.wsme_definition = some fd) (h_args : fd.arguments = arg :: args_rest)
    (h_post : c.getattr "post" = none) (h_put : c.getattr "put" = none)
    (h_delete : c.getattr "delete" = none) (h_patch : c.getattr "patch" = none)
    (h_custom : c.custom_actions = []) :
    endpointsForController pre c =
      some [⟨controller_base_path pre c, get_all, "get"⟩,
            ⟨controller_base_path pre c ++ "/(" ++ arg.name ++ ")", get_one, "get"⟩]
    ∧ (∀ l, endpointsForController pre c = some l →
        l.length = 2 ∧ (∀ e ∈ l, e.verb = "get") ∧ ¬ ∃ e ∈ l, e.verb = "post") := by
  have hmain : endpointsForController pre c =
      some [⟨controller_base_path pre c, get_all, "get"⟩,
            ⟨controller_base_path pre c ++ "/(" ++ arg.name ++ ")", get_one, "get"⟩] := by
    simp [endpointsForController, nonCustomEndpoints, conventionalEndpoints,
      conventional_entry, conventional_get_methods, conventional_write_methods,
      getOneEndpoints, customEndpoints, sortedActionNames, optionMapM,
      h_all, h_all_exp, h_get, h_one, h_one_exp, h_def, h_args,
      h_post, h_put, h_delete, h_patch, h_custom]
  refine ⟨hmain, ?_⟩
  intro l hl
  rw [hmain] at hl
  cases hl
  refine ⟨rfl, ?_, ?_⟩
  · intro e he
    simp only [List.mem_cons, List.not_mem_nil, or_false] at he
    rcases he with he | he <;> subst he <;> rfl
  · rintro ⟨e, he, hv⟩
    simp only [List.mem_cons, List.not_mem_nil, or_false] at he
    rcases he with he | he <;> subst he <;> simp at hv

/-- C1 witness: the fixture controller exposing only `get_all` and
`get_one`. -/
theorem claim_C1_witness :
    endpointsForController "/v1/things/" sampleController =
      some [⟨controller_base_path "/v1/things/" sampleController, sampleGetAll, "get"⟩,
            ⟨controller_base_path "/v1/things/" sampleController ++ "/(" ++ sampleArg.name ++ ")",
              sampleGetOne, "get"⟩] :=
  (claim_C1 "/v1/things/" sampleController sampleGetAll sampleGetOne sampleFuncdef sampleArg []
    (by decide) rfl (by decide) (by decide) rfl rfl rfl
    (by decide) (by decide) (by decide) (by decide) rfl).1

/-- C2: for every custom action name with its associated verb list and for
each verb in that list (at each position), the implementing method is
resolved by first looking up the attribute named by the lowercased verb
joined to the action name with an underscore, and only when that attribute
does not exist is the bare action name used; in particular, for action
`foo` with verbs `GET` then `POST`, where the controller has `get_foo` and
a bare `foo` but no `post_foo`, the `get` descriptor is rendered from
`get_foo` and the `post` descriptor from the bare `foo`. -/
theorem claim_C2 (cp : String) (c : Controller) (name : String) (actions : List String)
    (h_acts : c.custom_actions.lookup name = some actions) :
    (∀ ds, customEndpointsForName cp c name = some ds →
        ds.length = actions.length
        ∧ ∀ (i : Nat) (action : String), actions[i]? = some action →
            (∀ mth, c.getattr (pyLower action ++ "_" ++ name) = some mth →
                ds[i]? = some ⟨cp ++ "/" ++ name, mth, pyLower action⟩)
            ∧ (c.getattr (pyLower action ++ "_" ++ name) = none →
                ∀ mth, c.getattr name = some mth →
                  ds[i]? = some ⟨cp ++ "/" ++ name, mth, pyLower action⟩))
    ∧ (name = "foo" → actions = ["GET", "POST"] →
        ∀ get_foo foo, c.getattr "get_foo" = some get_foo →
          c.getattr "post_foo" = none → c.getattr "foo" = some foo →
          customEndpointsForName cp c "foo" =
            some [⟨cp ++ "/" ++ "foo", get_foo, "get"⟩,
                  ⟨cp ++ "/" ++ "foo", foo, "post"⟩]) := by
  constructor
  · intro ds hds
    have hmap : optionMapM (fun action =>
        match c.getattr (pyLower action ++ "_" ++ name) with
        | some method => some (⟨cp ++ "/" ++ name, method, pyLower action⟩ : Endpoint)
        | none =>
            match c.getattr name with
            | some method => some ⟨cp ++ "/" ++ name, method, pyLower action⟩
            | none => none) actions = some ds := by
      simpa [customEndpointsForName, h_acts] using hds
    refine ⟨optionMapM_length _ _ _ hmap, ?_⟩
    intro i action ha
    rcases optionMapM_getElem? _ _ _ hmap i action ha with ⟨b, hb, hbi⟩
    constructor
    · intro mth hmth
      rw [hmth] at hb
      cases hb
      exact hbi
    · intro hnone mth hmth
      rw [hnone, hmth] at hb
      cases hb
      exact hbi
  · intro hname hacts get_foo foo h_get_foo h_post_foo h_foo
    subst hname
    subst hacts
    have e_get : pyLower "GET" ++ "_" ++ "foo" = "get_foo" := by decide
    have e_post : pyLower "POST" ++ "_" ++ "foo" = "post_foo" := by decide
    have l_get : pyLower "GET" = "get" := by decide
    have l_post : pyLower "POST" = "post" := by decide
    simp [customEndpointsForName, optionMapM, h_acts,
      e_get, e_post, l_get, l_post, h_get_foo, h_post_foo, h_foo]

/-- C2 witness: the fixture controller with `get_foo` and bare `foo`. -/
theorem claim_C2_witness :
    customEndpointsForName "/things" sampleCustomController "foo" =
      some [⟨"/things" ++ "/" ++ "foo", sampleGetFoo, "get"⟩,
            ⟨"/things" ++ "/" ++ "foo", sampleFoo, "post"⟩] :=
  (claim_C2 "/things" sampleCustomController "foo" ["GET", "POST"] (by decide)).2
    rfl rfl sampleGetFoo sampleFoo (by decide) (by decide) (by decide)

/-- C4: for an exposed `get_one` carrying metadata, the emitted descriptor
path is the controller base path suffixed with `(<name>)` where `<name>` is
the first declared parameter name of the attached metadata; the theorem
holds for every controller, so in particular for any constructor argument
name. -/
theorem claim_C4 (pre : String) (c : Controller) (get_one : Method)
    (fd : FunctionDefinition) (arg : FunctionArgument) (rest : List FunctionArgument)
    (h_one : c.getattr "get_one" = some get_one) (h_exp : get_one.exposed = some true)
    (h_def : get_one.wsme_definition = some fd) (h_args : fd.arguments = arg :: rest) :
    getOneEndpoints (controller_base_path pre c) c =
      some [⟨controller_base_path pre c ++ "/(" ++ arg.name ++ ")", get_one, "get"⟩] := by
  simp [getOneEndpoints, h_one, h_exp, h_def, h_args]

/-- C4 witness: the fixture controller, whose constructor argument is named
`group_id` while the metadata argument is named `item_id`. -/
theorem claim_C4_witness :
    getOneEndpoints (controller_base_path "/v1/things/" sampleController) sampleController =
      some [⟨controller_base_path "/v1/things/" sampleController ++ "/(" ++ sampleArg.name ++ ")",
              sampleGetOne, "get"⟩] :=
  claim_C4 "/v1/things/" sampleController sampleGetOne sampleFuncdef sampleArg []
    (by decide) rfl rfl rfl

/-- C10: an exposed `get_one` without the `_wsme_definition` attribute, or
with metadata declaring zero arguments, makes the whole endpoint inference
fail (the raised AttributeError/IndexError, `none`) instead of emitting or
skipping the descriptor; when the metadata is present with at least one
declared argument this error branch is unreachable. -/
theorem claim_C10 (pre : String) (c : Controller) (get_one : Method)
    (h_one : c.getattr "get_one" = some get_one) (h_exp : get_one.exposed = some true) :
    (get_one.wsme_definition = none → endpointsForController pre c = none)
    ∧ (∀ fd, get_one.wsme_definition = some fd → fd.arguments = [] →
        endpointsForController pre c = none)
    ∧ (∀ fd arg rest, get_one.wsme_definition = some fd → fd.arguments = arg :: rest →
        getOneEndpoints (controller_base_path pre c) c ≠ none) := by
  have hfail : getOneEndpoints (controller_base_path pre c) c = none →
      endpointsForController pre c = none := by
    intro hno
    cases hge : conventionalEndpoints (controller_base_path pre c) c
        conventional_get_methods with
    | none => simp [endpointsForController, nonCustomEndpoints, hge]
    | some ge => simp [endpointsForController, nonCustomEndpoints, hge, hno]
  refine ⟨?_, ?_, ?_⟩
  · intro hw
    exact hfail (by simp [getOneEndpoints, h_one, h_exp, hw])
  · intro fd hw hargs
    exact hfail (by simp [getOneEndpoints, h_one, h_exp, hw, hargs])
  · intro fd arg rest hw hargs
    simp [getOneEndpoints, h_one, h_exp, hw, hargs]

/-- C10 witness: a controller with an exposed `get_one` that carries no
metadata makes the inference fail. -/
theorem claim_C10_witness : endpointsForController "/" sampleNoMeta = none :=
  (claim_C10 "/" sampleNoMeta ⟨some true, ["No metadata.", ""], none⟩ (by decide) rfl).1 rfl

/-- Every descriptor one conventional-loop iteration emits sits at the
controller path. -/
lemma path_of_mem_entry {cp : String} {c : Controller} {p : String × String}
    {head : List Endpoint} (h : conventional_entry cp c p = some head) :
    ∀ e ∈ head, e.path = cp := by
  unfold conventional_entry at h
  split at h
  · split at h
    · cases h
    · split at h
      · cases h
        intro e he
        rw [List.mem_singleton] at he
        subst he
        rfl
      · cases h
        intro e he
        cases he
  · cases h
    intro e he
    cases he

/-- Every descriptor a conventional-method loop emits sits at the controller
path. -/
lemma path_of_mem_conventional {cp : String} {c : Controller} :
    ∀ {tbl : List (String × String)} {l : List Endpoint},
      conventionalEndpoints cp c tbl = some l → ∀ e ∈ l, e.path = cp
  | [], l => by
      intro h e he
      cases h
      cases he
  | p :: rest, l => by
      intro h e he
      unfold conventionalEndpoints at h
      cases hhd : conventional_entry cp c p with
      | none => simp [hhd] at h
      | some head =>
          cases htl : conventionalEndpoints cp c rest with
          | none => simp [hhd, htl] at h
          | some tail =>
              have hl : head ++ tail = l := by
                rw [hhd, htl] at h
                simpa using h
              subst hl
              rcases List.mem_append.mp he with h1 | h2
              · exact path_of_mem_entry hhd e h1
              · exact path_of_mem_conventional htl e h2

/-- Every descriptor the `get_one` phase emits sits at the controller path
followed by a parenthesized argument name. -/
lemma path_of_mem_getOne {cp : String} {c : Controller} {l : List Endpoint}
    (h : getOneEndpoints cp c = some l) :
    ∀ e ∈ l, ∃ n, e.path = ((cp ++ "/(") ++ n) ++ ")" := by
  unfold getOneEndpoints at h
  split at h
  · cases h
    intro e he
    cases he
  · split at h
    · cases h
    · split at h
      · split at h
        · cases h
        · split at h
          · cases h
          · cases h
            intro e he
            rw [List.mem_singleton] at he
            subst he
            exact ⟨_, rfl⟩
      · cases h
        intro e he
        cases he

/-- Reassociating the constructor-placeholder suffix. -/
lemma append_group_id (a : String) :
    ((a ++ "/(") ++ "group_id") ++ ")" = (a ++ "/") ++ "(group_id)" := by
  rw [String.append_assoc, String.append_assoc, String.append_assoc]
  exact congrArg (a ++ ·) (by decide)

/-- C3: for a controller whose constructor takes a second positional
argument named `group_id`, the controller base path carries the placeholder
and every non-custom endpoint path is suffixed with `(group_id)` — except
that the `get_one` descriptor additionally appends its own `(<name>)`
placeholder after it. -/
theorem claim_C3 (pre : String) (c : Controller) (self_name : String)
    (more : List String)
    (h_init : c.init_argspec = some (self_name :: "group_id" :: more)) :
    controller_base_path pre c = (pyRstripSlash pre ++ "/") ++ "(group_id)"
    ∧ ∀ l, nonCustomEndpoints pre c = some l → ∀ e ∈ l,
        (∃ q, e.path = q ++ "(group_id)")
        ∨ (∃ q n, e.path = ((q ++ "(group_id)") ++ "/(") ++ n ++ ")") := by
  have hbase : controller_base_path pre c = (pyRstripSlash pre ++ "/") ++ "(group_id)" := by
    unfold controller_base_path
    rw [h_init]
    exact append_group_id (pyRstripSlash pre)
  refine ⟨hbase, ?_⟩
  intro l hl e he
  unfold nonCustomEndpoints at hl
  cases hget : conventionalEndpoints (controller_base_path pre c) c
      conventional_get_methods with
  | none => simp [hget] at hl
  | some ge =>
      cases hone : getOneEndpoints (controller_base_path pre c) c with
      | none => simp [hget, hone] at hl
      | some one_eps =>
          cases hwrite : conventionalEndpoints (controller_base_path pre c) c
              conventional_write_methods with
          | none => simp [hget, hone, hwrite] at hl
          | some we =>
              have hl2 : ge ++ one_eps ++ we = l := by
                simp only [hget, hone, hwrite] at hl
                simpa using hl
              subst hl2
              rcases List.mem_append.mp he with hmem | hmem
              · rcases List.mem_append.mp hmem with hmem1 | hmem1
                · left
                  have hp := path_of_mem_conventional hget e hmem1
                  exact ⟨pyRstripSlash pre ++ "/", by rw [hp, hbase]⟩
                · right
                  rcases path_of_mem_getOne hone e hmem1 with ⟨n, hn⟩
                  refine ⟨pyRstripSlash pre ++ "/", n, ?_⟩
                  rw [hn, hbase, String.append_assoc, String.append_assoc]
              · left
                have hp := path_of_mem_conventional hwrite e hmem
                exact ⟨pyRstripSlash pre ++ "/", by rw [hp, hbase]⟩

/-- C3 witness: the fixture controller whose constructor argument list is
`(self, group_id)`. -/
theorem claim_C3_witness :
    controller_base_path "/v1/things/" sampleController =
      (pyRstripSlash "/v1/things/" ++ "/") ++ "(group_id)" :=
  (claim_C3 "/v1/things/" sampleController "self" [] rfl).1

/-- C5: custom-action endpoint groups are emitted following the lexically
sorted sequence of action names, and the whole endpoint sequence is the
same for two controllers whose registries carry the same name-to-verbs
mapping regardless of insertion order. -/
theorem claim_C5 (pre : String) (c1 c2 : Controller)
    (h_methods : c1.methods = c2.methods)
    (h_init : c1.init_argspec = c2.init_argspec)
    (h_nodup1 : (c1.custom_actions.map Prod.fst).Nodup)
    (h_nodup2 : (c2.custom_actions.map Prod.fst).Nodup)
    (h_same : ∀ n, c1.custom_actions.lookup n = c2.custom_actions.lookup n) :
    (sortedActionNames c1).Sorted strLe
    ∧ (∀ cp groups,
        optionMapM (customEndpointsForName cp c1) (sortedActionNames c1) = some groups →
        customEndpoints cp c1 = some groups.flatten)
    ∧ endpointsForController pre c1 = endpointsForController pre c2 := by
  have hsorted : ∀ c : Controller, (sortedActionNames c).Sorted strLe := fun c =>
    List.sorted_insertionSort strLe _
  have hkeys : (c1.custom_actions.map Prod.fst).Perm (c2.custom_actions.map Prod.fst) := by
    rw [List.perm_ext_iff_of_nodup h_nodup1 h_nodup2]
    intro n
    rw [← lookup_isSome_iff_mem_keys, ← lookup_isSome_iff_mem_keys, h_same n]
  have hnames : sortedActionNames c1 = sortedActionNames c2 := by
    apply List.eq_of_perm_of_sorted _ (hsorted c1) (hsorted c2)
    exact (List.perm_insertionSort strLe _).trans
      (hkeys.trans (List.perm_insertionSort strLe _).symm)
  have hga : ∀ n, c1.getattr n = c2.getattr n := fun n => by
    unfold Controller.getattr
    rw [h_methods]
  have hcp : controller_base_path pre c1 = controller_base_path pre c2 := by
    unfold controller_base_path
    rw [h_init]
  have hentry : ∀ cp p, conventional_entry cp c1 p = conventional_entry cp c2 p := by
    intro cp p
    unfold conventional_entry
    rw [hga p.1]
  have hconv : ∀ cp tbl, conventionalEndpoints cp c1 tbl = conventionalEndpoints cp c2 tbl := by
    intro cp tbl
    induction tbl with
    | nil => rfl
    | cons p rest ih =>
        unfold conventionalEndpoints
        rw [hentry cp p]
        simp only [ih]
  have hone : ∀ cp, getOneEndpoints cp c1 = getOneEndpoints cp c2 := by
    intro cp
    unfold getOneEndpoints
    rw [hga "get_one"]
  have hcn : ∀ cp, customEndpointsForName cp c1 = customEndpointsForName cp c2 := by
    intro cp
    funext n
    unfold customEndpointsForName
    rw [h_same n]
    simp only [hga]
  have hcust : ∀ cp, customEndpoints cp c1 = customEndpoints cp c2 := by
    intro cp
    unfold customEndpoints
    rw [hnames, hcn cp]
  have hnc : nonCustomEndpoints pre c1 = nonCustomEndpoints pre c2 := by
    unfold nonCustomEndpoints
    simp only [hcp, hconv, hone]
  refine ⟨hsorted c1, ?_, ?_⟩
  · intro cp groups hg
    simp [customEndpoints, hg]
  · unfold endpointsForController
    simp only [hnc, hcp, hcust]

/-- C5 witness: two controllers whose registries hold the same mapping in
opposite insertion orders. -/
theorem claim_C5_witness :
    (sortedActionNames sampleRegistryBA).Sorted strLe
    ∧ (∀ cp groups,
        optionMapM (customEndpointsForName cp sampleRegistryBA)
            (sortedActionNames sampleRegistryBA) = some groups →
        customEndpoints cp sampleRegistryBA = some groups.flatten)
    ∧ endpointsForController "/" sampleRegistryBA = endpointsForController "/" sampleRegistryAB :=
  claim_C5 "/" sampleRegistryBA sampleRegistryAB rfl rfl (by decide) (by decide)
    (fun n => by
      by_cases ha : n = "a"
      · subst ha
        decide
      · by_cases hb : n = "b"
        · subst hb
          decide
        · have b1 : (n == "b") = false := by simp [hb]
          have b2 : (n == "a") = false := by simp [ha]
          simp [sampleRegistryBA, sampleRegistryAB, List.lookup, b1, b2])
